import Mathlib

/-!
Verification of the text-analysis pipeline of the simple-editor repository:
the word/character-count engine (`countWords`, `formatWordCount`), the outline
extractor (`parseHeadings`) and the line-oriented markdown renderer
(`renderMarkdown`).  Strings are modelled as Lean `String` (lists of Unicode
code points); for the inputs considered here (no surrogate halves) this agrees
with the JavaScript code-unit view.  Regular-expression behaviour of the
source is modelled by explicit scanning functions; each definition mirrors the
corresponding source function.
-/

namespace SimpleEditor

/-- Whitespace class of JavaScript: the characters matched by `\s` in a
regular expression and stripped by `String.prototype.trim`. -/
def jsWs (c : Char) : Bool :=
  c == ' ' || c == '\t' || c == '\n' || c == '\r' ||
  c.toNat == 0x0B || c.toNat == 0x0C ||
  c.toNat == 0xA0 || c.toNat == 0x1680 ||
  (0x2000 ≤ c.toNat && c.toNat ≤ 0x200A) ||
  c.toNat == 0x2028 || c.toNat == 0x2029 ||
  c.toNat == 0x202F || c.toNat == 0x205F ||
  c.toNat == 0x3000 || c.toNat == 0xFEFF

/-- Characters matched by `.` in a JavaScript regular expression without the
`s` flag: everything except the four line terminators. -/
def jsDot (c : Char) : Bool :=
  !(c == '\n' || c == '\r' || c.toNat == 0x2028 || c.toNat == 0x2029)

/-- ASCII decimal digit, as matched by `\d`. -/
def isDigitChar (c : Char) : Bool :=
  48 ≤ c.toNat && c.toNat ≤ 57

/-- CJK Unified Ideographs block U+4E00 to U+9FFF, the character class
`[一-鿿]` used by `countWords`. -/
def isCJK (c : Char) : Bool :=
  0x4E00 ≤ c.toNat && c.toNat ≤ 0x9FFF

/-- Length of the longest run of characters satisfying `p` at the head. -/
def countLeading (p : Char → Bool) : List Char → Nat
  | [] => 0
  | c :: t => if p c then countLeading p t + 1 else 0

/-- Strip leading and trailing JavaScript whitespace from a character list. -/
def trimChars (l : List Char) : List Char :=
  ((l.dropWhile jsWs).reverse.dropWhile jsWs).reverse

/-- JavaScript `String.prototype.trim`. -/
def jsTrim (s : String) : String :=
  String.mk (trimChars s.data)

/-- Prepend a character to the first segment of a split result, used by the
splitting functions below. -/
def consHead (c : Char) : List (List Char) → List (List Char)
  | [] => [[c]]
  | h :: r => (c :: h) :: r

/-- JavaScript `split('\n')` on character lists. -/
def splitNlChars : List Char → List (List Char)
  | [] => [[]]
  | c :: t => if c = '\n' then [] :: splitNlChars t else consHead c (splitNlChars t)

/-- JavaScript `split('\n')`. -/
def jsSplitNl (s : String) : List String :=
  (splitNlChars s.data).map String.mk

/-- JavaScript `split(/\r?\n/)`: a newline, optionally preceded by a carriage
return, separates segments; a lone carriage return does not. -/
def splitLinesCR : List Char → List (List Char)
  | [] => [[]]
  | '\r' :: '\n' :: t => [] :: splitLinesCR t
  | '\n' :: t => [] :: splitLinesCR t
  | c :: t => consHead c (splitLinesCR t)

/-- JavaScript `Array.prototype.join(sep)`. -/
def joinSep (sep : String) : List String → String
  | [] => ""
  | [x] => x
  | x :: xs => x ++ sep ++ joinSep sep xs

/-- Maximal runs of non-whitespace characters, fuelled so that the
definition is structural.  `split(/\s+/)` followed by discarding empty
segments (as the source does) yields exactly these runs. -/
def wsTokensF : Nat → List Char → List (List Char)
  | 0, _ => []
  | _, [] => []
  | n+1, c :: t =>
    if jsWs c then wsTokensF n t
    else (c :: t.takeWhile (fun d => !jsWs d)) :: wsTokensF n (t.dropWhile (fun d => !jsWs d))

/-- Maximal runs of non-whitespace characters. -/
def wsTokens (l : List Char) : List (List Char) :=
  wsTokensF l.length l

/-- Index of the last `'\n'` strictly below the given bound, searching
downward; used for the greedy `\s*` of the paragraph separator. -/
def lastNlIdx (t : List Char) : Nat → Option Nat
  | 0 => none
  | j+1 => if t.getD j ' ' = '\n' then some j else lastNlIdx t j

/-- JavaScript `split(/\n\s*\n/)`: a newline, a greedy run of whitespace
backtracked to end at a final newline.  The separator starting at a `'\n'`
consumes that newline, then whitespace up to and including the last newline
inside the following whitespace run; if that run contains no newline the
candidate fails and the character stays in the current segment. -/
def splitParaF : Nat → List Char → List (List Char)
  | 0, s => [s]
  | _, [] => [[]]
  | n+1, c :: t =>
    if c = '\n' then
      match lastNlIdx t (countLeading jsWs t) with
      | some j => [] :: splitParaF n (t.drop (j+1))
      | none => consHead c (splitParaF n t)
    else consHead c (splitParaF n t)

/-- Paragraph segments of a text, per `text.split(/\n\s*\n/)`. -/
def splitPara (l : List Char) : List (List Char) :=
  splitParaF l.length l

/-- Result record of `countWords`; field names follow the source object. -/
structure Counts where
  words : Nat
  characters : Nat
  chineseChars : Nat
  englishWords : Nat
  lines : Nat
  paragraphs : Nat
deriving Repr, DecidableEq

/-- The word-count engine `countWords` of `renderer.js`: early return of the
zero record when the text is empty or trims to empty; otherwise Chinese
characters are the CJK code points, English words are the whitespace-separated
tokens after CJK code points are replaced by spaces, `words` is their sum,
`characters` is the text length, `lines` counts `\r?\n` segments and
`paragraphs` counts non-blank `\n\s*\n` segments with a floor of one. -/
def countWords (text : String) : Counts :=
  if text = "" ∨ (jsTrim text).length = 0 then
    ⟨0, 0, 0, 0, 1, 0⟩
  else
    let chineseChars := (text.data.filter isCJK).length
    let englishWords :=
      ((wsTokens (text.data.map (fun c => if isCJK c then ' ' else c))).filter
        (fun w => w.length > 0)).length
    let paraSegs := (splitPara text.data).filter (fun p => (trimChars p).length > 0)
    ⟨chineseChars + englishWords,
     text.length,
     chineseChars,
     englishWords,
     (splitLinesCR text.data).length,
     if paraSegs.length = 0 then 1 else paraSegs.length⟩

/-- A JavaScript value as far as the option records are concerned:
`undefined`, `null`, a boolean, a number or a string. -/
inductive JsVal where
  | undef
  | jsNull
  | bool (b : Bool)
  | num (n : Int)
  | str (s : String)
deriving Repr, DecidableEq

/-- JavaScript truthiness of a `JsVal` (numbers model integers, so the only
falsy number is zero). -/
def jsTruthy : JsVal → Bool
  | .undef => false
  | .jsNull => false
  | .bool b => b
  | .num n => n != 0
  | .str s => s != ""

/-- JavaScript `v || false`: the value itself when truthy, otherwise the
boolean `false`. -/
def jsOrFalse (v : JsVal) : JsVal :=
  if jsTruthy v then v else .bool false

/-- The caller-supplied options object of `formatWordCount`; every field may
hold any JavaScript value, an absent field reads as `undefined`. -/
structure RawOptions where
  showChineseWordCount : JsVal := .undef
  showEnglishWordCount : JsVal := .undef
  showTotalWordCount : JsVal := .undef
  showCharacterCount : JsVal := .undef
  showWordCountBreakdown : JsVal := .undef
  showLineCount : JsVal := .undef
  showParagraphCount : JsVal := .undef
deriving Repr, DecidableEq

/-- The normalized `opts` object built at the top of `formatWordCount`.  The
five `!== false` fields are genuine booleans; the two `|| false` fields keep
the original value when truthy and are later tested for truthiness. -/
structure WCOpts where
  showChineseWordCount : Bool
  showEnglishWordCount : Bool
  showTotalWordCount : Bool
  showCharacterCount : Bool
  showWordCountBreakdown : Bool
  showLineCount : JsVal
  showParagraphCount : JsVal
deriving Repr, DecidableEq

/-- The defaulting block of `formatWordCount`: `options.x !== false` for the
five default-true flags and `options.x || false` for the two default-false
flags. -/
def normalizeOptions (o : RawOptions) : WCOpts :=
  ⟨(if o.showChineseWordCount = JsVal.bool false then false else true),
   (if o.showEnglishWordCount = JsVal.bool false then false else true),
   (if o.showTotalWordCount = JsVal.bool false then false else true),
   (if o.showCharacterCount = JsVal.bool false then false else true),
   (if o.showWordCountBreakdown = JsVal.bool false then false else true),
   jsOrFalse o.showLineCount,
   jsOrFalse o.showParagraphCount⟩

/-- The statistics formatter `formatWordCount` of `renderer.js`. -/
def formatWordCount (counts : Counts) (options : RawOptions) : String :=
  let opts := normalizeOptions options
  let wordParts : List String :=
    if opts.showTotalWordCount then
      if opts.showWordCountBreakdown then
        let breakdownParts : List String :=
          (if opts.showChineseWordCount then
            ["Chinese: " ++ toString counts.chineseChars] else []) ++
          (if opts.showEnglishWordCount then
            ["English: " ++ toString counts.englishWords] else [])
        if breakdownParts.length > 0 then
          ["Words: " ++ toString counts.words ++ " (" ++ joinSep ", " breakdownParts ++ ")"]
        else
          ["Words: " ++ toString counts.words]
      else
        ["Words: " ++ toString counts.words]
    else
      if opts.showWordCountBreakdown then
        (if opts.showChineseWordCount then
          ["Chinese: " ++ toString counts.chineseChars] else []) ++
        (if opts.showEnglishWordCount then
          ["English: " ++ toString counts.englishWords] else [])
      else
        (if opts.showChineseWordCount then
          ["Chinese Words: " ++ toString counts.chineseChars] else []) ++
        (if opts.showEnglishWordCount then
          ["English Words: " ++ toString counts.englishWords] else [])
  let parts : List String :=
    wordParts ++
    (if opts.showCharacterCount then
      ["Characters: " ++ toString counts.characters] else []) ++
    (if jsTruthy opts.showLineCount then
      ["Lines: " ++ toString counts.lines] else []) ++
    (if jsTruthy opts.showParagraphCount then
      ["Paragraphs: " ++ toString counts.paragraphs] else [])
  if parts.length > 0 then joinSep " | " parts else "No statistics"

/-- Greedy `\s+` followed by a final capture: searching downward from the
whitespace-run length, find the largest split point `j ≥ 1` such that the
remainder consists of `.`-matchable characters (and, when `allowEmpty` is
false, is non-empty).  This is the backtracking behaviour of
`\s+(.*)$` respectively `\s+(.+)$` after a committed left part. -/
def wsSplitSearch (allowEmpty : Bool) (rest : List Char) : Nat → Option Nat
  | 0 => none
  | j+1 =>
    if (rest.drop (j+1)).all jsDot ∧ (allowEmpty ∨ rest.drop (j+1) ≠ []) then some (j+1)
    else wsSplitSearch allowEmpty rest j

/-- Match of `^(#{1,6})\s+(.+)$` (or `(.*)$` when `allowEmpty` is true)
returning the number of hashes and the captured text.  Backtracking of
`#{1,6}` never helps because every shorter prefix ends before another hash,
so the hash run must have length one to six and be followed by whitespace. -/
def atxCapture (allowEmpty : Bool) (t : List Char) : Option (Nat × List Char) :=
  let k := countLeading (fun c => c == '#') t
  if 1 ≤ k ∧ k ≤ 6 then
    let rest := t.drop k
    match wsSplitSearch allowEmpty rest (countLeading jsWs rest) with
    | some j => some (k, rest.drop j)
    | none => none
  else none

/-- Non-null test of `^#{1,6}\s`, the gate regex of the renderer's heading
branch. -/
def gateATX (t : List Char) : Bool :=
  let k := countLeading (fun c => c == '#') t
  if 1 ≤ k ∧ k ≤ 6 then
    match (t.drop k).head? with
    | some c => jsWs c
    | none => false
  else false

/-- Match of `^(\d+)\.\s+(.*)$`, the renderer's numbered-list regex,
returning the captured item text. -/
def numberedCapture (t : List Char) : Option (List Char) :=
  let d := countLeading isDigitChar t
  if 1 ≤ d ∧ (t.drop d).head? = some '.' then
    let rest := t.drop (d+1)
    (wsSplitSearch true rest (countLeading jsWs rest)).map (rest.drop ·)
  else none

/-- Match of `^[-*]\s+(.*)$`, the renderer's bullet-list regex, returning the
captured item text. -/
def bulletCapture (t : List Char) : Option (List Char) :=
  match t with
  | [] => none
  | c :: rest =>
    if c = '-' ∨ c = '*' then
      (wsSplitSearch true rest (countLeading jsWs rest)).map (rest.drop ·)
    else none

/-- Match of `^(\d+|[A-Z])\.\s+(.+)$` used by `parseHeadings`: the digit
alternative is committed whenever the line starts with a digit, otherwise a
single capital letter followed by a dot is tried. -/
def numLetterCapture (t : List Char) : Option (List Char) :=
  let d := countLeading isDigitChar t
  if 1 ≤ d then
    if (t.drop d).head? = some '.' then
      let rest := t.drop (d+1)
      (wsSplitSearch false rest (countLeading jsWs rest)).map (rest.drop ·)
    else none
  else
    match t with
    | c :: '.' :: rest =>
      if 'A' ≤ c ∧ c ≤ 'Z' then
        (wsSplitSearch false rest (countLeading jsWs rest)).map (rest.drop ·)
      else none
    | _ => none

/-- A heading record produced by `parseHeadings`. -/
structure Heading where
  level : Nat
  text : String
  line : Nat
deriving Repr, DecidableEq

/-- Classification of a single line by `parseHeadings`, given the whole line
array and the 0-based index: an ATX match pushes `{level, trimmed capture,
index+1}`; otherwise an all-`=` (all-`-`) line after a non-blank previous
line pushes a level-1 (level-2) setext heading whose recorded line is the
0-based `index` itself; otherwise a numbered or capital-letter match on a
line shorter than 100 characters pushes a level-3 heading at `index+1`. -/
def headingOf (lines : List String) (i : Nat) (line : String) : Option Heading :=
  match atxCapture false line.data with
  | some (k, cap) => some ⟨k, jsTrim (String.mk cap), i + 1⟩
  | none =>
    if 0 < i ∧ (jsTrim (lines.getD (i-1) "")).length > 0 ∧
        line.data ≠ [] ∧ line.data.all (fun c => c == '=') then
      some ⟨1, jsTrim (lines.getD (i-1) ""), i⟩
    else if 0 < i ∧ (jsTrim (lines.getD (i-1) "")).length > 0 ∧
        line.data ≠ [] ∧ line.data.all (fun c => c == '-') then
      some ⟨2, jsTrim (lines.getD (i-1) ""), i⟩
    else
      match numLetterCapture line.data with
      | some cap => if line.length < 100 then some ⟨3, jsTrim (String.mk cap), i + 1⟩ else none
      | none => none

/-- The `forEach` of `parseHeadings`: fold over the lines with an explicit
0-based index, collecting the heading each line produces. -/
def headingsGo (lines : List String) : Nat → List String → List Heading
  | _, [] => []
  | i, l :: rest => (headingOf lines i l).toList ++ headingsGo lines (i+1) rest

/-- The outline extractor `parseHeadings` of `renderer.js`: split on `'\n'`
and classify every line in order. -/
def parseHeadings (content : String) : List Heading :=
  let lines := jsSplitNl content
  headingsGo lines 0 lines

/-- One escaped character of the DOM-based `escapeHtml`: serializing a text
node through `innerHTML` escapes the ampersand, the angle brackets and the
non-breaking space, and leaves every other character unchanged. -/
def escChar (c : Char) : List Char :=
  if c = '&' then "&amp;".data
  else if c = '<' then "&lt;".data
  else if c = '>' then "&gt;".data
  else if c.toNat = 0xA0 then "&nbsp;".data
  else [c]

/-- The `escapeHtml` helper of the renderer (text node in, `innerHTML` out). -/
def escapeHtml (s : String) : String :=
  String.mk (s.data.foldr (fun c acc => escChar c ++ acc) [])

/-- Match, at the head of `s`, of a delimited pattern `L[^x]+R` where every
character of the run avoids `bad` and the closing delimiter starts with a
`bad` character (true of every pattern below, so the greedy run never
backtracks).  Returns the captured run and the rest of the input. -/
def matchDelim (l r : List Char) (bad : Char → Bool) (s : List Char) :
    Option (List Char × List Char) :=
  if l.isPrefixOf s then
    let s1 := s.drop l.length
    let run := s1.takeWhile (fun c => !bad c)
    let s2 := s1.dropWhile (fun c => !bad c)
    if run ≠ [] ∧ r.isPrefixOf s2 then some (run, s2.drop r.length)
    else none
  else none

/-- Global replacement of a delimited pattern, scanning left to right over
the original input as `String.prototype.replace` with a `g` flag does;
replacements are emitted and never rescanned.  Fuelled by the input length. -/
def replaceDelimF (l r : List Char) (bad : Char → Bool) (left right : List Char) :
    Nat → List Char → List Char
  | _, [] => []
  | 0, s => s
  | n+1, c :: t =>
    match matchDelim l r bad (c :: t) with
    | some (run, rest) => left ++ run ++ right ++ replaceDelimF l r bad left right n rest
    | none => c :: replaceDelimF l r bad left right n t

/-- Global replacement of `L([^x]+)R` by `left$1right`. -/
def replaceDelim (l r : List Char) (bad : Char → Bool) (left right : List Char)
    (s : List Char) : List Char :=
  replaceDelimF l r bad left right s.length s

/-- Match, at the head of `s`, of the link pattern
`\[([^\]]+)\]\(([^)]+)\)`, returning label, url and the rest. -/
def matchLink (s : List Char) : Option (List Char × List Char × List Char) :=
  match matchDelim ['['] [']', '('] (fun c => c == ']') s with
  | some (label, s1) =>
    let url := s1.takeWhile (fun c => c != ')')
    let s2 := s1.dropWhile (fun c => c != ')')
    if url ≠ [] ∧ s2 ≠ [] then some (label, url, s2.drop 1)
    else none
  | none => none

/-- Global replacement of markdown links by anchor tags. -/
def replaceLinksF : Nat → List Char → List Char
  | _, [] => []
  | 0, s => s
  | n+1, c :: t =>
    match matchLink (c :: t) with
    | some (label, url, rest) =>
      "<a href=\"".data ++ url ++ "\">".data ++ label ++ "</a>".data ++ replaceLinksF n rest
    | none => c :: replaceLinksF n t

/-- The inline transform `processInline` of `renderMarkdown`: escape, then
code spans, bold, italic, the (vacuous, see `c3`) underline pass-through and
links; inside a code block only the escape is applied. -/
def processInline (inCodeBlock : Bool) (text : String) : String :=
  if inCodeBlock then escapeHtml text
  else
    let h0 := (escapeHtml text).data
    let h1 := replaceDelim ['`'] ['`'] (fun c => c == '`') "<code>".data "</code>".data h0
    let h2 := replaceDelim ['*', '*'] ['*', '*'] (fun c => c == '*')
      "<strong>".data "</strong>".data h1
    let h3 := replaceDelim ['_', '_'] ['_', '_'] (fun c => c == '_')
      "<strong>".data "</strong>".data h2
    let h4 := replaceDelim ['*'] ['*'] (fun c => c == '*') "<em>".data "</em>".data h3
    let h5 := replaceDelim ['_'] ['_'] (fun c => c == '_') "<em>".data "</em>".data h4
    let h6 := replaceDelim "<u>".data "</u>".data (fun c => c == '<')
      "<u>".data "</u>".data h5
    let h7 := replaceLinksF h6.length h6
    String.mk h7

/-- Kind of an open list, `'ol'` or `'ul'` in the source. -/
inductive LKind where
  | ol
  | ul
deriving Repr, DecidableEq

/-- The mutable locals of one `renderMarkdown` call. -/
structure MDState where
  result : List String
  inCodeBlock : Bool
  codeBlockContent : List String
  inList : Bool
  listType : Option LKind
  listItems : List String
deriving Repr, DecidableEq

/-- Initial renderer state. -/
def initState : MDState :=
  ⟨[], false, [], false, none, []⟩

/-- The `listType === 'ol' ? 'ol' : 'ul'` tag choice. -/
def listTag (t : Option LKind) : String :=
  if t = some LKind.ol then "ol" else "ul"

/-- The renderer's `closeList`: flush pending items as one list block (each
item inline-processed, indented by two spaces) when a list is open and
non-empty, then leave list mode. -/
def closeList (st : MDState) : MDState :=
  if st.inList = true ∧ st.listItems ≠ [] then
    { st with
      result := st.result ++
        [("<" ++ listTag st.listType ++ ">")] ++
        st.listItems.map (fun it => "  <li>" ++ processInline st.inCodeBlock it ++ "</li>") ++
        [("</" ++ listTag st.listType ++ ">")],
      listItems := [],
      inList := false,
      listType := none }
  else
    { st with inList := false, listType := none }

/-- The renderer's `closeCodeBlock`: flush buffered lines as one escaped
`<pre><code>` block when in code mode with content, and in every case reset
`inCodeBlock` to `false` (this unconditional reset is what breaks the fence
toggle, see `c2`). -/
def closeCodeBlock (st : MDState) : MDState :=
  if st.inCodeBlock = true ∧ st.codeBlockContent ≠ [] then
    { st with
      result := st.result ++
        ["<pre><code>" ++ escapeHtml (joinSep "\n" st.codeBlockContent) ++ "</code></pre>"],
      codeBlockContent := [],
      inCodeBlock := false }
  else
    { st with inCodeBlock := false }

/-- The list-item branch of the renderer loop: open a list of the given kind
(closing any previous list) unless one of the same kind is already open, then
append the item text. -/
def listItemStep (st : MDState) (k : LKind) (itemText : String) : MDState :=
  let st1 :=
    if st.inList = false ∨ st.listType ≠ some k then
      let s := closeList st
      { s with inList := true, listType := some k }
    else st
  { st1 with listItems := st1.listItems ++ [itemText] }

/-- One iteration of the `renderMarkdown` line loop, in source order: fence
lines close the list and the code block and then negate the (already reset)
flag; inside code mode lines are buffered verbatim; then headings, horizontal
rules, blockquotes, list items, and finally paragraph or blank line. -/
def mdStep (st : MDState) (line : String) : MDState :=
  let trimmed := jsTrim line
  if "```".data.isPrefixOf trimmed.data then
    let st1 := closeCodeBlock (closeList st)
    { st1 with inCodeBlock := !st1.inCodeBlock }
  else if st.inCodeBlock then
    { st with codeBlockContent := st.codeBlockContent ++ [line] }
  else if gateATX trimmed.data then
    let st1 := closeList st
    match atxCapture true trimmed.data with
    | some (k, cap) =>
      { st1 with result := st1.result ++
          ["<h" ++ toString k ++ ">" ++ processInline st1.inCodeBlock (String.mk cap) ++
            "</h" ++ toString k ++ ">"] }
    | none => st1
  else if trimmed = "---" ∨ trimmed = "***" then
    let st1 := closeList st
    { st1 with result := st1.result ++ ["<hr>"] }
  else if ">".data.isPrefixOf trimmed.data then
    let st1 := closeList st
    { st1 with result := st1.result ++
        ["<blockquote>" ++
          processInline st1.inCodeBlock (jsTrim (String.mk (trimmed.data.drop 1))) ++
          "</blockquote>"] }
  else
    match numberedCapture trimmed.data with
    | some cap => listItemStep st LKind.ol (String.mk cap)
    | none =>
      match bulletCapture trimmed.data with
      | some cap => listItemStep st LKind.ul (String.mk cap)
      | none =>
        let st1 := closeList st
        if trimmed ≠ "" then
          { st1 with result := st1.result ++
              ["<p>" ++ processInline st1.inCodeBlock trimmed ++ "</p>"] }
        else
          { st1 with result := st1.result ++ [""] }

/-- The markdown renderer `renderMarkdown` of the editor: empty input short
circuits to the empty string; otherwise the lines are folded through
`mdStep`, the still-open list and code block are flushed, and the collected
output lines are joined by newlines. -/
def renderMarkdown (markdown : String) : String :=
  if markdown = "" then ""
  else
    joinSep "\n"
      (closeCodeBlock (closeList ((jsSplitNl markdown).foldl mdStep initState))).result

/-- Number of (possibly overlapping) occurrences of a pattern in a string,
used to state uniqueness of emitted blocks. -/
def countOccurF (pat : List Char) : Nat → List Char → Nat
  | _, [] => 0
  | 0, _ => 0
  | n+1, c :: t =>
    (if pat.isPrefixOf (c :: t) then 1 else 0) + countOccurF pat n t

/-- Number of occurrences of `pat` in `s`. -/
def countOccur (pat s : String) : Nat :=
  countOccurF pat.data s.data.length s.data

/-- The options record with every display flag set to the boolean `false`. -/
def allFalseOptions : RawOptions :=
  ⟨.bool false, .bool false, .bool false, .bool false, .bool false, .bool false, .bool false⟩

/-- Helper: a text all of whose characters are JavaScript whitespace trims to
the empty string, so `countWords` takes its early-return branch. -/
theorem countWords_all_ws (t : String) (h : ∀ c ∈ t.data, jsWs c = true) :
    countWords t = ⟨0, 0, 0, 0, 1, 0⟩ := by
  have hd : t.data.dropWhile jsWs = [] := by
    cases hl : t.data with
    | nil => rfl
    | cons c cs =>
      rw [List.dropWhile_eq_nil_iff]
      intro x hx
      exact h x (hl ▸ hx)
  have hlen : (jsTrim t).length = 0 := by
    unfold jsTrim trimChars
    rw [hd]
    rfl
  unfold countWords
  rw [if_pos (Or.inr hlen)]

end SimpleEditor

namespace SimpleEditor

/-- C1: the claim states that for whitespace-only input `countWords` keeps
`characters` equal to the literal length of the input (5 in the spec's own
example).  The source's whitespace-trim early return yields `characters = 0`
instead: on the spec's example string (length 6) the field is `0`, not the
literal length and not 5. -/
theorem c1_counterexample :
    (countWords "   \n  ").characters = 0 ∧
    ("   \n  " : String).length = 6 ∧
    (countWords "   \n  ").characters ≠ ("   \n  " : String).length ∧
    (countWords "   \n  ").characters ≠ 5 := by
  refine ⟨rfl, rfl, ?_, ?_⟩ <;> decide

/-- C1 (amended): for a whitespace-only input string, `countWords` returns a
`characters` field equal to zero — the whitespace-trim check zeroes the
character count together with every other count. -/
theorem c1_ws_characters_zero (t : String) (h : ∀ c ∈ t.data, jsWs c = true) :
    (countWords t).characters = 0 := by
  rw [countWords_all_ws t h]

/-- Witness for C1 at the spec's own example string. -/
theorem c1_witness : (countWords "   \n  ").characters = 0 :=
  c1_ws_characters_zero "   \n  " (by decide)

/-- C2: the claim states that a closing fence returns the renderer to normal
mode, so a following plain line becomes a paragraph.  In the source,
`closeCodeBlock` resets `inCodeBlock` to `false` before the fence branch
negates it, so every fence line leaves the renderer in code mode: after
a fenced block, the plain line `b` is buffered and flushed as a second
`<pre><code>` block, not emitted as `<p>b</p>`. -/
theorem c2_fence_bug :
    renderMarkdown "```\na\n```\nb" =
      "<pre><code>a</code></pre>\n<pre><code>b</code></pre>" ∧
    renderMarkdown "```\na\n```\nb" ≠
      "<pre><code>a</code></pre>\n<p>b</p>" := by
  refine ⟨rfl, ?_⟩ ; decide

/-- C3: the claim states that a literal `<u>…</u>` pair survives escaping and
is passed through as an underline element.  In the source, `escapeHtml` runs
first and rewrites the tag pair to `&lt;u&gt;…&lt;/u&gt;`; the underline
regular expression is then applied to the escaped text, where no `<`
remains, so it can never match: the output paragraph carries the escaped
text, not an underline element. -/
theorem c3_underline_bug :
    renderMarkdown "<u>x</u>" = "<p>&lt;u&gt;x&lt;/u&gt;</p>" ∧
    renderMarkdown "<u>x</u>" ≠ "<p><u>x</u></p>" := by
  refine ⟨rfl, ?_⟩ ; decide

/-- C5: for every input string that is empty or consists only of whitespace,
`countWords` returns the zero record with `lines = 1` and `paragraphs = 0`. -/
theorem c5_ws_zero_counts (t : String) (h : t = "" ∨ ∀ c ∈ t.data, jsWs c = true) :
    countWords t = ⟨0, 0, 0, 0, 1, 0⟩ := by
  rcases h with h | h
  · subst h
    rfl
  · exact countWords_all_ws t h

/-- Witness for C5 on a whitespace-only string. -/
theorem c5_witness : countWords "\t \n " = ⟨0, 0, 0, 0, 1, 0⟩ :=
  c5_ws_zero_counts "\t \n " (Or.inr (by decide))

/-- C6: for every input text, the record returned by `countWords` satisfies
`words = chineseChars + englishWords`. -/
theorem c6_total_is_sum (t : String) :
    (countWords t).words = (countWords t).chineseChars + (countWords t).englishWords := by
  unfold countWords
  split
  · rfl
  · rfl

/-- C9: whenever all seven display flags are the boolean `false`, the segment
list is empty and `formatWordCount` returns the literal string
`No statistics`, whatever the counts record — in particular for the counts of
any text. -/
theorem c9_no_statistics (c : Counts) (t : String) :
    formatWordCount c allFalseOptions = "No statistics" ∧
    formatWordCount (countWords t) allFalseOptions = "No statistics" :=
  ⟨rfl, rfl⟩

/-- C10: the five default-true flags are disabled exactly by the boolean
`false` (any other value, including an absent `undefined` field, enables
them), while `showLineCount` and `showParagraphCount` are enabled exactly by
a truthy value, absent fields included being falsy; the all-absent record
normalizes to the five defaults true and the two extras off. -/
theorem c10_option_defaults (v : JsVal) :
    ((normalizeOptions ⟨v, v, v, v, v, v, v⟩).showChineseWordCount = true ↔
      v ≠ JsVal.bool false) ∧
    ((normalizeOptions ⟨v, v, v, v, v, v, v⟩).showEnglishWordCount = true ↔
      v ≠ JsVal.bool false) ∧
    ((normalizeOptions ⟨v, v, v, v, v, v, v⟩).showTotalWordCount = true ↔
      v ≠ JsVal.bool false) ∧
    ((normalizeOptions ⟨v, v, v, v, v, v, v⟩).showCharacterCount = true ↔
      v ≠ JsVal.bool false) ∧
    ((normalizeOptions ⟨v, v, v, v, v, v, v⟩).showWordCountBreakdown = true ↔
      v ≠ JsVal.bool false) ∧
    (jsTruthy (normalizeOptions ⟨v, v, v, v, v, v, v⟩).showLineCount = jsTruthy v) ∧
    (jsTruthy (normalizeOptions ⟨v, v, v, v, v, v, v⟩).showParagraphCount = jsTruthy v) ∧
    normalizeOptions {} =
      ⟨true, true, true, true, true, JsVal.bool false, JsVal.bool false⟩ := by
  have htr : jsTruthy (jsOrFalse v) = jsTruthy v := by
    unfold jsOrFalse
    by_cases h : jsTruthy v = true
    · rw [if_pos h]
    · rw [if_neg h, Bool.not_eq_true] at *
      rw [h]
      rfl
  have h5 : (if v = JsVal.bool false then false else true) = true ↔ v ≠ JsVal.bool false := by
    by_cases h : v = JsVal.bool false
    · simp [h]
    · simp [h]
  exact ⟨h5, h5, h5, h5, h5, htr, htr, rfl⟩

/-- Helper: decompose a `drop` at a valid index into head and tail. -/
theorem drop_eq_getD_cons (l : List String) (i : Nat) (h : i < l.length) :
    l.drop i = l.getD i "" :: l.drop (i+1) := by
  induction l generalizing i with
  | nil => simp at h
  | cons x xs ih =>
    cases i with
    | zero => simp
    | succ n =>
      simp only [List.drop_succ_cons, List.getD_cons_succ]
      exact ih n (by simpa using h)

/-- Helper: a line whose classification succeeds is a member of the heading
list collected from any suffix of the line array that still contains it. -/
theorem headingsGo_mem (ls : List String) (hd : Heading) :
    ∀ (j : Nat) (cur : List String), cur = ls.drop j →
      ∀ i, j ≤ i → i < ls.length →
        headingOf ls i (ls.getD i "") = some hd → hd ∈ headingsGo ls j cur := by
  intro j cur
  induction cur generalizing j with
  | nil =>
    intro hcur i hji hi _
    exfalso
    have hlen : ls.length ≤ j := by
      by_contra hlt
      push_neg at hlt
      have := drop_eq_getD_cons ls j hlt
      rw [← hcur] at this
      exact List.noConfusion this
    omega
  | cons x rest ih =>
    intro hcur i hji hi hh
    have hjlt : j < ls.length := by
      by_contra hge
      push_neg at hge
      rw [List.drop_eq_nil_of_le hge] at hcur
      exact List.noConfusion hcur
    have hdec := drop_eq_getD_cons ls j hjlt
    rw [← hcur] at hdec
    have hx : x = ls.getD j "" := (List.cons.injEq _ _ _ _ ▸ hdec).1
    have hrest : rest = ls.drop (j+1) := (List.cons.injEq _ _ _ _ ▸ hdec).2
    by_cases hij : i = j
    · subst hij
      unfold headingsGo
      rw [hx, hh]
      exact List.mem_append_left _ (by simp)
    · have hji' : j + 1 ≤ i := by omega
      unfold headingsGo
      exact List.mem_append_right _ (ih (j+1) hrest i hji' hi hh)

/-- Helper: a non-empty all-equals line never matches the ATX regex, whose
first character must be a hash. -/
theorem atxCapture_none_of_all_eq (u : List Char) (hne : u ≠ [])
    (hall : u.all (fun c => c == '=') = true) : atxCapture false u = none := by
  cases u with
  | nil => exact absurd rfl hne
  | cons c t =>
    have hc : c = '=' := by
      simp only [List.all_cons, Bool.and_eq_true] at hall
      exact eq_of_beq hall.1
    subst hc
    unfold atxCapture
    have h0 : countLeading (fun c => c == '#') ('=' :: t) = 0 := rfl
    rw [h0]
    simp

/-- Helper: a non-empty all-dashes line never matches the ATX regex either. -/
theorem atxCapture_none_of_all_dash (u : List Char) (hne : u ≠ [])
    (hall : u.all (fun c => c == '-') = true) : atxCapture false u = none := by
  cases u with
  | nil => exact absurd rfl hne
  | cons c t =>
    have hc : c = '-' := by
      simp only [List.all_cons, Bool.and_eq_true] at hall
      exact eq_of_beq hall.1
    subst hc
    unfold atxCapture
    have h0 : countLeading (fun c => c == '#') ('-' :: t) = 0 := rfl
    rw [h0]
    simp

/-- Helper: a non-empty all-dashes line is not an all-equals line, so the
dash underline falls through the level-1 setext branch. -/
theorem not_all_eq_of_all_dash (u : List Char) (hne : u ≠ [])
    (hall : u.all (fun c => c == '-') = true) :
    ¬ u.all (fun c => c == '=') = true := by
  intro heq
  cases u with
  | nil => exact hne rfl
  | cons c t =>
    simp only [List.all_cons, Bool.and_eq_true] at hall heq
    have h1 : c = '-' := eq_of_beq hall.1
    have h2 : c = '=' := eq_of_beq heq.1
    rw [h1] at h2
    exact absurd h2 (by decide)

/-- C4: `parseHeadings` records a setext heading for an underline line after
a non-blank line — an all-`=` line at level 1, an all-`-` line at level 2 —
with text the trimmed previous line and with `line` equal to the underline's
0-based index; on the spec's example the single heading is
`{level 1, text "Title", line 1}`, and the dash example `"Sub\n---\n"` gives
`{level 2, text "Sub", line 1}`. -/
theorem c4_setext_heading :
    parseHeadings "Title\n=====\n" = [⟨1, "Title", 1⟩] ∧
    (∀ (content : String) (i : Nat),
      0 < i →
      i < (jsSplitNl content).length →
      ((jsSplitNl content).getD i "").data ≠ [] →
      ((jsSplitNl content).getD i "").data.all (fun c => c == '=') = true →
      (jsTrim ((jsSplitNl content).getD (i-1) "")).length > 0 →
      (⟨1, jsTrim ((jsSplitNl content).getD (i-1) ""), i⟩ : Heading) ∈
        parseHeadings content) ∧
    parseHeadings "Sub\n---\n" = [⟨2, "Sub", 1⟩] ∧
    ∀ (content : String) (i : Nat),
      0 < i →
      i < (jsSplitNl content).length →
      ((jsSplitNl content).getD i "").data ≠ [] →
      ((jsSplitNl content).getD i "").data.all (fun c => c == '-') = true →
      (jsTrim ((jsSplitNl content).getD (i-1) "")).length > 0 →
      (⟨2, jsTrim ((jsSplitNl content).getD (i-1) ""), i⟩ : Heading) ∈
        parseHeadings content := by
  refine ⟨rfl, ?_, rfl, ?_⟩
  · intro content i hi hlen hne hall hprev
    unfold parseHeadings
    apply headingsGo_mem (jsSplitNl content) _ 0 (jsSplitNl content) rfl i (Nat.zero_le i) hlen
    unfold headingOf
    rw [atxCapture_none_of_all_eq _ hne hall]
    rw [if_pos ⟨hi, hprev, hne, hall⟩]
  · intro content i hi hlen hne hall hprev
    unfold parseHeadings
    apply headingsGo_mem (jsSplitNl content) _ 0 (jsSplitNl content) rfl i (Nat.zero_le i) hlen
    unfold headingOf
    rw [atxCapture_none_of_all_dash _ hne hall]
    rw [if_neg (fun hcontra => not_all_eq_of_all_dash _ hne hall hcontra.2.2.2)]
    rw [if_pos ⟨hi, hprev, hne, hall⟩]

/-- Witness for C4: an equals underline and a dash underline, each at
0-based index 3. -/
theorem c4_witness :
    (⟨1, "Title", 3⟩ : Heading) ∈ parseHeadings "A\nB\nTitle\n===\n" ∧
    (⟨2, "Sub", 3⟩ : Heading) ∈ parseHeadings "A\nB\nSub\n----\n" := by
  constructor
  · have h := c4_setext_heading.2.1 "A\nB\nTitle\n===\n" 3 (by decide) (by decide)
      (by decide) (by decide) (by decide)
    have he : jsTrim ((jsSplitNl "A\nB\nTitle\n===\n").getD (3-1) "") = "Title" := by decide
    rw [he] at h
    exact h
  · have h := c4_setext_heading.2.2.2 "A\nB\nSub\n----\n" 3 (by decide) (by decide)
      (by decide) (by decide) (by decide)
    have he : jsTrim ((jsSplitNl "A\nB\nSub\n----\n").getD (3-1) "") = "Sub" := by decide
    rw [he] at h
    exact h

/-- Helper: rebuilding a string from its character list is the identity. -/
theorem mk_data (s : String) : String.mk s.data = s := by
  cases s
  rfl

/-- Helper: the character list of an appended string. -/
theorem data_append (s t : String) : (s ++ t).data = s.data ++ t.data :=
  rfl

/-- Helper: a list unchanged by `dropWhile` has a head that fails the
predicate. -/
theorem head_false_of_dropWhile_self {p : Char → Bool} {c : Char} {t : List Char}
    (h : (c :: t).dropWhile p = c :: t) : p c = false := by
  cases hc : p c with
  | false => rfl
  | true =>
    exfalso
    rw [List.dropWhile_cons, if_pos hc] at h
    have hle : (t.dropWhile p).length ≤ t.length :=
      List.Sublist.length_le (List.dropWhile_sublist _)
    rw [h] at hle
    simp at hle

/-- Helper: `dropWhile` leaves an appended list alone when it leaves the
non-empty left part alone. -/
theorem dropWhile_append_self {p : Char → Bool} {a : List Char} (b : List Char)
    (h : a.dropWhile p = a) (hne : a ≠ []) : (a ++ b).dropWhile p = a ++ b := by
  cases a with
  | nil => exact absurd rfl hne
  | cons c t =>
    have hc := head_false_of_dropWhile_self h
    rw [List.cons_append, List.dropWhile_cons, if_neg (by simp [hc])]

/-- Helper: no leading run when the head fails the predicate. -/
theorem countLeading_eq_zero {p : Char → Bool} {l : List Char}
    (h : l.dropWhile p = l) (hne : l ≠ []) : countLeading p l = 0 := by
  cases l with
  | nil => exact absurd rfl hne
  | cons c t =>
    have hc := head_false_of_dropWhile_self h
    unfold countLeading
    rw [hc]
    rfl

/-- Helper: a character list all of whose members match `.` contains no
newline. -/
theorem nl_not_mem_of_all_dot {l : List Char} (h : l.all jsDot = true) :
    '\n' ∉ l := by
  intro hmem
  have := List.all_eq_true.mp h '\n' hmem
  simp [jsDot] at this

/-- Helper: trimming a bullet line `- x` is the identity when the item text
is non-empty with no surrounding whitespace. -/
theorem trim_bullet_line (x : String) (hne : x.data ≠ [])
    (htrail : x.data.reverse.dropWhile jsWs = x.data.reverse) :
    jsTrim ("- " ++ x) = "- " ++ x := by
  have hdata : ("- " ++ x).data = '-' :: ' ' :: x.data := rfl
  have hrevne : x.data.reverse ≠ [] := by
    simpa using hne
  have hrw : ('-' :: ' ' :: x.data).reverse = x.data.reverse ++ [' ', '-'] := by
    simp
  have h2 : ('-' :: ' ' :: x.data).reverse.dropWhile jsWs =
      ('-' :: ' ' :: x.data).reverse := by
    rw [hrw]
    exact dropWhile_append_self _ htrail hrevne
  have h1 : ('-' :: ' ' :: x.data).dropWhile jsWs = '-' :: ' ' :: x.data := by
    rw [List.dropWhile_cons, if_neg (by simp [jsWs])]
  unfold jsTrim trimChars
  rw [hdata, h1, h2, List.reverse_reverse, ← hdata, mk_data]

/-- Helper: unfolding equation of `bulletCapture` on a non-empty line. -/
theorem bulletCapture_cons (c : Char) (rest : List Char) :
    bulletCapture (c :: rest) =
      if c = '-' ∨ c = '*' then
        (wsSplitSearch true rest (countLeading jsWs rest)).map (rest.drop ·)
      else none :=
  rfl

/-- Helper: unfolding equation of `countLeading` on a non-empty line. -/
theorem countLeading_cons (p : Char → Bool) (c : Char) (t : List Char) :
    countLeading p (c :: t) = if p c then countLeading p t + 1 else 0 :=
  rfl

/-- Helper: unfolding equation of `wsSplitSearch` at a positive bound. -/
theorem wsSplitSearch_succ (ae : Bool) (rest : List Char) (j : Nat) :
    wsSplitSearch ae rest (j+1) =
      if (rest.drop (j+1)).all jsDot ∧ (ae ∨ rest.drop (j+1) ≠ []) then some (j+1)
      else wsSplitSearch ae rest j :=
  rfl

/-- Helper: on a bullet line `- x` (item non-empty, no surrounding
whitespace, no line terminators), the renderer loop takes exactly the
unordered-list branch with item text `x`. -/
theorem mdStep_bullet (st : MDState) (x : String)
    (hst : st.inCodeBlock = false)
    (hne : x.data ≠ [])
    (hlead : x.data.dropWhile jsWs = x.data)
    (htrail : x.data.reverse.dropWhile jsWs = x.data.reverse)
    (hdot : x.data.all jsDot = true) :
    mdStep st ("- " ++ x) = listItemStep st LKind.ul x := by
  have htrim := trim_bullet_line x hne htrail
  have hdata : ("- " ++ x).data = '-' :: ' ' :: x.data := rfl
  have hfence : ("```".data.isPrefixOf (jsTrim ("- " ++ x)).data) = false := by
    rw [htrim, hdata]
    rfl
  have hgate : gateATX (jsTrim ("- " ++ x)).data = false := by
    rw [htrim, hdata]
    rfl
  have hhr : ¬ (jsTrim ("- " ++ x) = "---" ∨ jsTrim ("- " ++ x) = "***") := by
    rw [htrim]
    rintro (h | h) <;>
    · have hd := congrArg String.data h
      rw [hdata] at hd
      injection hd with ha hb
      injection hb with hc _
      exact absurd hc (by decide)
  have hbq : (">".data.isPrefixOf (jsTrim ("- " ++ x)).data) = false := by
    rw [htrim, hdata]
    rfl
  have hnum : numberedCapture (jsTrim ("- " ++ x)).data = none := by
    rw [htrim, hdata]
    rfl
  have hcl : countLeading jsWs x.data = 0 := countLeading_eq_zero hlead hne
  have hbul : bulletCapture (jsTrim ("- " ++ x)).data = some x.data := by
    rw [htrim, hdata, bulletCapture_cons, if_pos (Or.inl rfl), countLeading_cons,
      if_pos (show jsWs ' ' = true from rfl), hcl, wsSplitSearch_succ,
      if_pos ⟨by simpa using hdot, Or.inl rfl⟩]
    rfl
  unfold mdStep
  simp only [hfence, hst, hgate, hbq, hnum, hbul, if_neg hhr,
    Bool.false_eq_true, if_false, mk_data]

/-- Helper: appending an item to a list of the same kind keeps every other
state field. -/
theorem listItemStep_same_kind (st : MDState) (x : String)
    (h1 : st.inList = true) (h2 : st.listType = some LKind.ul) :
    listItemStep st LKind.ul x = { st with listItems := st.listItems ++ [x] } := by
  unfold listItemStep
  rw [if_neg (by simp [h1, h2])]

/-- Helper: folding further bullet lines onto an open unordered list only
accumulates their item texts. -/
theorem foldl_bullet_lines (items : List String) :
    ∀ st : MDState, st.inCodeBlock = false → st.inList = true →
      st.listType = some LKind.ul →
      (∀ i ∈ items, i.data ≠ [] ∧ i.data.dropWhile jsWs = i.data ∧
        i.data.reverse.dropWhile jsWs = i.data.reverse ∧ i.data.all jsDot = true) →
      List.foldl mdStep st (items.map (fun i => "- " ++ i)) =
        { st with listItems := st.listItems ++ items } := by
  induction items with
  | nil =>
    intro st _ _ _ _
    simp
  | cons x rest ih =>
    intro st h1 h2 h3 hall
    obtain ⟨hne, hlead, htrail, hdot⟩ := hall x (List.mem_cons_self x rest)
    rw [List.map_cons, List.foldl_cons,
      mdStep_bullet st x h1 hne hlead htrail hdot,
      listItemStep_same_kind st x h2 h3,
      ih { st with listItems := st.listItems ++ [x] } h1 h2 h3
        (fun i hi => hall i (List.mem_cons_of_mem x hi))]
    simp

/-- Helper: unfolding equation of `splitNlChars` on a non-empty list. -/
theorem splitNlChars_cons (c : Char) (t : List Char) :
    splitNlChars (c :: t) =
      if c = '\n' then [] :: splitNlChars t else consHead c (splitNlChars t) :=
  rfl

/-- Helper: a newline-free character list splits into itself alone. -/
theorem splitNlChars_no_nl (l : List Char) (h : '\n' ∉ l) : splitNlChars l = [l] := by
  induction l with
  | nil => rfl
  | cons c t ih =>
    have hc : ¬ c = '\n' := fun hc => h (hc ▸ List.mem_cons_self c t)
    have ht : '\n' ∉ t := fun hm => h (List.mem_cons_of_mem c hm)
    rw [splitNlChars_cons, if_neg hc, ih ht]
    rfl

/-- Helper: splitting after a newline-free leading segment peels it off. -/
theorem splitNlChars_append (a t : List Char) (h : '\n' ∉ a) :
    splitNlChars (a ++ '\n' :: t) = a :: splitNlChars t := by
  induction a with
  | nil =>
    rw [List.nil_append, splitNlChars_cons, if_pos rfl]
  | cons c a2 ih =>
    have hc : ¬ c = '\n' := fun hc => h (hc ▸ List.mem_cons_self c a2)
    have ha : '\n' ∉ a2 := fun hm => h (List.mem_cons_of_mem c hm)
    rw [List.cons_append, splitNlChars_cons, if_neg hc, ih ha]
    rfl

/-- Helper: unfolding equation of `joinSep` on a two-or-more list. -/
theorem joinSep_cons₂ (sep x y : String) (t : List String) :
    joinSep sep (x :: y :: t) = x ++ sep ++ joinSep sep (y :: t) :=
  rfl

/-- Helper: splitting a newline join of newline-free lines recovers them. -/
theorem jsSplitNl_joinSep (ls : List String) (hne : ls ≠ [])
    (h : ∀ l ∈ ls, '\n' ∉ l.data) : jsSplitNl (joinSep "\n" ls) = ls := by
  induction ls with
  | nil => exact absurd rfl hne
  | cons x xs ih =>
    cases xs with
    | nil =>
      show (splitNlChars x.data).map String.mk = [x]
      rw [splitNlChars_no_nl x.data (h x (List.mem_cons_self x []))]
      simp [mk_data]
    | cons y t =>
      have hdata : (joinSep "\n" (x :: y :: t)).data =
          x.data ++ '\n' :: (joinSep "\n" (y :: t)).data := by
        rw [joinSep_cons₂]
        simp [data_append]
      show (splitNlChars (joinSep "\n" (x :: y :: t)).data).map String.mk = x :: y :: t
      rw [hdata, splitNlChars_append _ _ (h x (List.mem_cons_self x (y :: t)))]
      have ihr := ih (by simp) (fun l hl => h l (List.mem_cons_of_mem x hl))
      simp only [List.map_cons, mk_data]
      rw [show (splitNlChars (joinSep "\n" (y :: t)).data).map String.mk =
        jsSplitNl (joinSep "\n" (y :: t)) from rfl, ihr]

/-- Helper: a string whose character list is non-empty is not empty. -/
theorem ne_empty_of_data_ne_nil {s : String} (h : s.data ≠ []) : s ≠ "" := by
  intro he
  rw [he] at h
  exact h rfl

/-- C7: consecutive bullet lines accumulate into a single unordered-list
block: the spec's example yields one `<ul>` containing both items (one
occurrence of each list tag, two `<li>` items), and in general a document of
bullet lines `- i` renders as a single `<ul>` block listing every item in
order. -/
theorem c7_list_accumulation :
    (renderMarkdown "- a\n- b\n" = "<ul>\n  <li>a</li>\n  <li>b</li>\n</ul>\n" ∧
     countOccur "<ul>" (renderMarkdown "- a\n- b\n") = 1 ∧
     countOccur "</ul>" (renderMarkdown "- a\n- b\n") = 1 ∧
     countOccur "<li>" (renderMarkdown "- a\n- b\n") = 2) ∧
    ∀ (items : List String), items ≠ [] →
      (∀ i ∈ items, i.data ≠ [] ∧ i.data.dropWhile jsWs = i.data ∧
        i.data.reverse.dropWhile jsWs = i.data.reverse ∧ i.data.all jsDot = true) →
      renderMarkdown (joinSep "\n" (items.map (fun i => "- " ++ i))) =
        joinSep "\n" ("<ul>" ::
          items.map (fun i => "  <li>" ++ processInline false i ++ "</li>") ++
          ["</ul>"]) := by
  constructor
  · exact ⟨rfl, by decide, by decide, by decide⟩
  · intro items hne hall
    obtain ⟨x, rest, rfl⟩ := List.exists_cons_of_ne_nil hne
    obtain ⟨hx1, hx2, hx3, hx4⟩ := hall x (List.mem_cons_self x rest)
    have hnl : ∀ l ∈ (x :: rest).map (fun i => "- " ++ i), '\n' ∉ l.data := by
      intro l hl
      rw [List.mem_map] at hl
      obtain ⟨i, hi, rfl⟩ := hl
      obtain ⟨_, _, _, hdot⟩ := hall i hi
      show '\n' ∉ '-' :: ' ' :: i.data
      intro hmem
      simp only [List.mem_cons] at hmem
      rcases hmem with h | h | hmem
      · exact absurd h (by decide)
      · exact absurd h (by decide)
      · exact nl_not_mem_of_all_dot hdot hmem
    have hmdne : joinSep "\n" ((x :: rest).map (fun i => "- " ++ i)) ≠ "" := by
      apply ne_empty_of_data_ne_nil
      cases rest with
      | nil => simp [joinSep]
      | cons y t =>
        rw [List.map_cons, List.map_cons, joinSep_cons₂]
        simp [data_append]
    unfold renderMarkdown
    rw [if_neg hmdne, jsSplitNl_joinSep _ (by simp) hnl, List.map_cons,
      List.foldl_cons, mdStep_bullet initState x rfl hx1 hx2 hx3 hx4,
      show listItemStep initState LKind.ul x =
        ⟨[], false, [], true, some LKind.ul, [x]⟩ from rfl,
      foldl_bullet_lines rest ⟨[], false, [], true, some LKind.ul, [x]⟩ rfl rfl rfl
        (fun i hi => hall i (List.mem_cons_of_mem x hi))]
    simp [closeList, closeCodeBlock, listTag]

/-- Witness for C7 on two bullet items. -/
theorem c7_witness : renderMarkdown "- x\n- y" = "<ul>\n  <li>x</li>\n  <li>y</li>\n</ul>" := by
  have h := c7_list_accumulation.2 ["x", "y"] (by decide) (by decide)
  rw [show joinSep "\n" (["x", "y"].map (fun i => "- " ++ i)) = "- x\n- y" from rfl] at h
  rw [h]
  rfl

/-- Helper: the join of a non-empty list starts with its first element. -/
theorem joinSep_data_head (sep x : String) (xs : List String) :
    ∃ r, (joinSep sep (x :: xs)).data = x.data ++ r := by
  cases xs with
  | nil => exact ⟨[], by simp [joinSep]⟩
  | cons y t =>
    exact ⟨sep.data ++ (joinSep sep (y :: t)).data, by rw [joinSep_cons₂]; simp [data_append]⟩

/-- Helper: while in code mode, a non-fence line is buffered verbatim. -/
theorem mdStep_codeline (st : MDState) (b : String)
    (hfence : ("```".data.isPrefixOf (jsTrim b).data) = false)
    (hst : st.inCodeBlock = true) :
    mdStep st b = { st with codeBlockContent := st.codeBlockContent ++ [b] } := by
  unfold mdStep
  simp only [hfence, hst, Bool.false_eq_true, if_false, if_true]

/-- Helper: folding non-fence lines in code mode only extends the buffered
content. -/
theorem foldl_codelines (bs : List String) :
    ∀ st : MDState, st.inCodeBlock = true →
      (∀ b ∈ bs, ("```".data.isPrefixOf (jsTrim b).data) = false) →
      List.foldl mdStep st bs = { st with codeBlockContent := st.codeBlockContent ++ bs } := by
  induction bs with
  | nil =>
    intro st _ _
    simp
  | cons b rest ih =>
    intro st hst hall
    rw [List.foldl_cons, mdStep_codeline st b (hall b (List.mem_cons_self b rest)) hst,
      ih { st with codeBlockContent := st.codeBlockContent ++ [b] } hst
        (fun l hl => hall l (List.mem_cons_of_mem b hl))]
    simp

/-- Helper: a fence line reached in code mode with buffered content flushes
the escaped block — and, because `closeCodeBlock` resets the flag before the
negation, leaves the renderer in code mode again. -/
theorem mdStep_fence_close (res cs : List String) (hcs : cs ≠ []) :
    mdStep ⟨res, true, cs, false, none, []⟩ "```" =
      ⟨res ++ ["<pre><code>" ++ escapeHtml (joinSep "\n" cs) ++ "</code></pre>"],
       true, [], false, none, []⟩ := by
  have h1 : ("```".data.isPrefixOf (jsTrim "```").data) = true := rfl
  unfold mdStep
  simp only [h1, if_true]
  rw [show closeList ⟨res, true, cs, false, none, []⟩ = ⟨res, true, cs, false, none, []⟩
    from by unfold closeList; rw [if_neg (by simp)]]
  unfold closeCodeBlock
  rw [if_pos ⟨rfl, hcs⟩]
  rfl

/-- C8: lines inside a fenced code block are buffered verbatim and emitted as
one HTML-escaped `<pre><code>` block, never inline-transformed: the spec's
example holds literally, and in general a single fenced block of non-fence
lines renders as exactly one escaped block of the newline-joined content. -/
theorem c8_code_block :
    renderMarkdown "```\nx<y\n```" = "<pre><code>x&lt;y</code></pre>" ∧
    ∀ (bs : List String), bs ≠ [] →
      (∀ b ∈ bs, '\n' ∉ b.data ∧ ("```".data.isPrefixOf (jsTrim b).data) = false) →
      renderMarkdown (joinSep "\n" ("```" :: (bs ++ ["```"]))) =
        "<pre><code>" ++ escapeHtml (joinSep "\n" bs) ++ "</code></pre>" := by
  constructor
  · rfl
  · intro bs hbs hall
    have hnl : ∀ l ∈ "```" :: (bs ++ ["```"]), '\n' ∉ l.data := by
      intro l hl
      rcases List.mem_cons.mp hl with rfl | hl2
      · decide
      rcases List.mem_append.mp hl2 with h3 | h4
      · exact (hall l h3).1
      · have h5 := List.mem_singleton.mp h4
        subst h5
        decide
    have hne2 : joinSep "\n" ("```" :: (bs ++ ["```"])) ≠ "" := by
      obtain ⟨r, hr⟩ := joinSep_data_head "\n" "```" (bs ++ ["```"])
      apply ne_empty_of_data_ne_nil
      rw [hr]
      simp
    unfold renderMarkdown
    rw [if_neg hne2, jsSplitNl_joinSep _ (by simp) hnl]
    simp only [List.foldl_cons, List.foldl_append, List.foldl_nil]
    rw [show mdStep initState "```" = ⟨[], true, [], false, none, []⟩ from rfl,
      foldl_codelines bs ⟨[], true, [], false, none, []⟩ rfl (fun b hb => (hall b hb).2)]
    show joinSep "\n"
        (closeCodeBlock (closeList
          (mdStep ⟨[], true, [] ++ bs, false, none, []⟩ "```"))).result =
      "<pre><code>" ++ escapeHtml (joinSep "\n" bs) ++ "</code></pre>"
    rw [List.nil_append, mdStep_fence_close [] bs hbs]
    simp [closeList, closeCodeBlock, joinSep]

/-- Witness for C8 on a one-line fenced block. -/
theorem c8_witness : renderMarkdown "```\nhello\n```" = "<pre><code>hello</code></pre>" := by
  have h := c8_code_block.2 ["hello"] (by decide) (by decide)
  rw [show joinSep "\n" ("```" :: (["hello"] ++ ["```"])) = "```\nhello\n```" from rfl] at h
  rw [h]
  rfl

end SimpleEditor
